import Mathlib

/-! Segmented scan of a partitioned table (`scanner.go`).

A shallow embedding of `Scanner.Start`, `Scanner.Wait` and
`Scanner.handlerLoop`, followed by the properties proved about them.

* The storage client `s.Svc` is external.  A worker sees it only through the
  values its `Scan` calls return, so a client is represented by the sequence
  of results it hands back to one worker, in call order.
* The handler, `fmt.Println`, `time.Sleep` and the wait group are external as
  well; calls to them are recorded as events of a trace.
* Go's `int` and `int64` are 64-bit two's complement integers: values are
  `Int`s and the results of the arithmetic of `Start` are wrapped by
  `wrapInt`.  The counter of the wait group belongs to `sync.WaitGroup` and
  is an unbounded `Int`.
-/

namespace Ddb

/-! ## Data model -/

/-- A `*dynamodb.AttributeValue`; the scanner never looks inside one. -/
abbrev AttributeValue := String

/-- A non-nil `map[string]*dynamodb.AttributeValue`, as its list of entries.
A possibly nil map is an `Option AttrMap`, `none` being the nil map. -/
abbrev AttrMap := List (String × AttributeValue)

/-- The fields of `dynamodb.ScanInput` that `handlerLoop` sets. -/
structure ScanInput where
  TableName : String
  Segment : Int
  TotalSegments : Int
  Limit : Int
  ExclusiveStartKey : Option AttrMap
deriving DecidableEq, Repr

/-- The fields of `dynamodb.ScanOutput` that `handlerLoop` reads. -/
structure ScanOutput where
  Items : List AttrMap
  LastEvaluatedKey : Option AttrMap
deriving DecidableEq, Repr

/-- What one call `s.Svc.Scan(params)` returns: `(resp, nil)` or `(_, err)`. -/
inductive ScanResult where
  | ok (resp : ScanOutput)
  | err (e : String)
deriving DecidableEq, Repr

/-- Modelled from the spec: the `Config` struct embedded in `Scanner` is
declared outside `scanner.go`.  These are the fields `scanner.go` reads:
table name, segments owned by this process, offset of this process, total
number of segments, page-size limit.  (`Svc` is represented by result
sequences.) -/
structure Config where
  TableName : String
  SegmentCount : Int
  SegmentOffset : Int
  TotalSegments : Int
  Limit : Int
deriving DecidableEq, Repr

/-- Modelled from the spec: `backoff.Backoff` comes from an external package.
Its state is an attempt counter; `Max` and `Jitter` are the options that
`handlerLoop` sets (`Max` in nanoseconds). -/
structure Backoff where
  attempt : Nat
  Max : Nat
  Jitter : Bool
deriving DecidableEq, Repr

/-- Modelled from the spec: `Duration()` reads the attempt counter and then
increments it.  The jittered delay itself is random; the value returned here
is the attempt number the delay is computed from. -/
def Backoff.Duration (b : Backoff) : Nat × Backoff :=
  (b.attempt, { b with attempt := b.attempt + 1 })

/-- Modelled from the spec: `Reset()` sets the attempt counter to zero. -/
def Backoff.Reset (b : Backoff) : Backoff :=
  { b with attempt := 0 }

/-- The externally visible actions of one worker. -/
inductive Event where
  /-- The call `s.Svc.Scan(params)`. -/
  | scan (params : ScanInput)
  /-- The call `fmt.Println(err)`. -/
  | println (e : String)
  /-- The call `time.Sleep(bk.Duration())`, with the attempt number the
  duration was computed from. -/
  | sleep (attempt : Nat)
  /-- The call `handler.HandleItems(resp.Items)`. -/
  | handleItems (items : List AttrMap)
  /-- The deferred `s.waitGroup.Done()`. -/
  | done
deriving DecidableEq, Repr

/-- The local variables of `handlerLoop` that live across iterations. -/
structure LoopState where
  lastEvaluatedKey : Option AttrMap
  bk : Backoff
deriving DecidableEq, Repr

/-- A run of `handlerLoop`: the trace, and where the worker stands at its
end: `none` when `handlerLoop` has returned, `some st` when it is inside
`s.Svc.Scan`, waiting for a result, with locals `st`. -/
structure Run where
  events : List Event
  final : Option LoopState
deriving DecidableEq, Repr

/-! ## `handlerLoop` -/

/-- Lines 46-51: the locals on entry to the loop. -/
def handlerLoop.init : LoopState :=
  { lastEvaluatedKey := none
    bk := { attempt := 0, Max := 5 * 60 * 1000000000, Jitter := true } }

/-- Lines 55-65: the request built at the top of an iteration. -/
def handlerLoop.params (cfg : Config) (segment : Int) (lastEvaluatedKey : Option AttrMap) :
    ScanInput :=
  let params : ScanInput :=
    { TableName := cfg.TableName
      Segment := segment
      TotalSegments := cfg.TotalSegments
      Limit := cfg.Limit
      ExclusiveStartKey := none }
  if lastEvaluatedKey ≠ none then
    { params with ExclusiveStartKey := lastEvaluatedKey }
  else
    params

/-- Lines 53-86: one iteration of the loop, given the result `r` of its
`Scan` call.  Returns the events of the iteration and the locals for the next
iteration, or `none` after `break` (then the deferred `Done` has run). -/
def handlerLoop.body (cfg : Config) (segment : Int) (st : LoopState) (r : ScanResult) :
    List Event × Option LoopState :=
  let params := handlerLoop.params cfg segment st.lastEvaluatedKey
  match r with
  | .err e =>
    let (d, bk) := st.bk.Duration
    ([.scan params, .println e, .sleep d], some { st with bk := bk })
  | .ok resp =>
    let bk := st.bk.Reset
    if resp.LastEvaluatedKey = none then
      ([.scan params, .handleItems resp.Items, .done], none)
    else
      ([.scan params, .handleItems resp.Items],
        some { lastEvaluatedKey := resp.LastEvaluatedKey, bk := bk })

/-- The loop of `handlerLoop` from locals `st`, against a client that returns
the results `rs` in this order and then nothing more: when the results are
used up the worker has issued its next `Scan` and waits inside it. -/
def handlerLoop.loop (cfg : Config) (segment : Int) : LoopState → List ScanResult → Run
  | st, [] => ⟨[.scan (handlerLoop.params cfg segment st.lastEvaluatedKey)], some st⟩
  | st, r :: rs =>
    match handlerLoop.body cfg segment st r with
    | (evs, none) => ⟨evs, none⟩
    | (evs, some st') =>
      let run := handlerLoop.loop cfg segment st' rs
      ⟨evs ++ run.events, run.final⟩

/-- Lines 43-87: `s.handlerLoop(handler, segment)`. -/
def handlerLoop (cfg : Config) (segment : Int) (rs : List ScanResult) : Run :=
  handlerLoop.loop cfg segment handlerLoop.init rs

/-! ## Reading a trace -/

/-- The requests of the `Scan` calls of a trace, in order. -/
def requests : List Event → List ScanInput
  | [] => []
  | .scan p :: evs => p :: requests evs
  | _ :: evs => requests evs

/-- The arguments of the `HandleItems` calls of a trace, in order. -/
def handled : List Event → List (List AttrMap)
  | [] => []
  | .handleItems items :: evs => items :: handled evs
  | _ :: evs => handled evs

/-- The attempt numbers of the `Sleep` calls of a trace, in order. -/
def sleeps : List Event → List Nat
  | [] => []
  | .sleep a :: evs => a :: sleeps evs
  | _ :: evs => sleeps evs

/-- The number of `waitGroup.Done()` calls of a trace. -/
def doneCount (evs : List Event) : Nat :=
  evs.count .done

/-! ## `Start`, `Wait` and the workers they launch -/

/-- The value a Go `int` (64 bits, two's complement) holds after an
arithmetic operation whose exact result is `x`. -/
def wrapInt (x : Int) : Int :=
  (x + 2 ^ 63) % 2 ^ 64 - 2 ^ 63

/-- The values a Go `int` can hold. -/
def IsInt (x : Int) : Prop :=
  -(2 ^ 63) ≤ x ∧ x < 2 ^ 63

instance (x : Int) : Decidable (IsInt x) := by
  unfold IsInt
  infer_instance

/-- A configuration whose integer fields are Go `int`s. -/
def Config.WF (cfg : Config) : Prop :=
  IsInt cfg.SegmentCount ∧ IsInt cfg.SegmentOffset ∧ IsInt cfg.TotalSegments ∧ IsInt cfg.Limit

instance (cfg : Config) : Decidable cfg.WF := by
  unfold Config.WF
  infer_instance

/-- A goroutine running `handlerLoop`: the segment it is bound to, its
locals, whether `handlerLoop` has returned, and its history: the results its
`Scan` calls returned and the events it produced. -/
structure Worker where
  segment : Int
  st : LoopState
  exited : Bool
  received : List ScanResult
  log : List Event
deriving DecidableEq, Repr

/-- The `Scanner` struct, with the counter of its `sync.WaitGroup`, and the
goroutines launched from it so far, in launch order. -/
structure Scanner where
  waitGroup : Int
  config : Config
  workers : List Worker
deriving DecidableEq, Repr

/-- Lines 14-21: `NewScanner(config)`.  `config.setDefaults()` is declared
outside `scanner.go`; `config` here is the configuration after defaulting. -/
def NewScanner (config : Config) : Scanner :=
  { waitGroup := 0, config := config, workers := [] }

/-- The statement `go s.handlerLoop(handler, segment)`: a new goroutine at
the entry of `handlerLoop`. -/
def Worker.spawn (segment : Int) : Worker :=
  { segment := segment, st := handlerLoop.init, exited := false, received := [], log := [] }

/-- Lines 32-34: the body of the loop of `Start` for loop variable `i`. -/
def Start.body (s : Scanner) (i : Int) : Scanner :=
  let waitGroup := s.waitGroup + 1
  let segment := wrapInt (wrapInt (s.config.SegmentCount * s.config.SegmentOffset) + i)
  { s with waitGroup := waitGroup, workers := s.workers ++ [Worker.spawn segment] }

/-- Line 31: `for i := 0; i < s.SegmentCount; i++`, run for at most `fuel`
iterations from loop variable `i`. -/
def Start.loop : Nat → Scanner → Int → Scanner
  | 0, s, _ => s
  | fuel + 1, s, i =>
    if i < s.config.SegmentCount then
      Start.loop fuel (Start.body s i) (wrapInt (i + 1))
    else
      s

/-- Lines 30-36: `s.Start(handler)`.  The loop makes `SegmentCount`
iterations when that is positive and none otherwise, so this fuel lets it run
until its guard fails; more fuel changes nothing. -/
def Start (s : Scanner) : Scanner :=
  Start.loop s.config.SegmentCount.toNat s 0

/-- The segment indices of the workers launched so far, in launch order. -/
def Scanner.segments (s : Scanner) : List Int :=
  s.workers.map Worker.segment

/-- One iteration of `handlerLoop` in worker `w`, whose `Scan` call returns
`r`.  A worker that has returned makes no step. -/
def Worker.step (cfg : Config) (w : Worker) (r : ScanResult) : Worker :=
  if w.exited then w
  else
    match handlerLoop.body cfg w.segment w.st r with
    | (evs, none) =>
      { w with exited := true, received := w.received ++ [r], log := w.log ++ evs }
    | (evs, some st) =>
      { w with st := st, received := w.received ++ [r], log := w.log ++ evs }

/-- One step of the system: the `k`-th worker makes one iteration with `Scan`
result `r`; when that iteration leaves `handlerLoop`, the deferred
`waitGroup.Done()` lowers the counter by one. -/
def Scanner.step (s : Scanner) (k : Nat) (r : ScanResult) : Scanner :=
  match s.workers.get? k with
  | none => s
  | some w =>
    if w.exited then s
    else
      let w' := w.step s.config r
      { s with
        workers := s.workers.set k w'
        waitGroup := if w'.exited then s.waitGroup - 1 else s.waitGroup }

/-- Lines 39-41: `s.Wait()` returns exactly when the counter of the wait
group is zero. -/
def Wait (s : Scanner) : Prop :=
  s.waitGroup = 0

instance (s : Scanner) : Decidable (Wait s) := by
  unfold Wait
  infer_instance

/-- The states of the system formed by one `Start` call on a new scanner
followed by any interleaving of worker steps. -/
inductive Reachable (cfg : Config) : Scanner → Prop where
  | start : Reachable cfg (Start (NewScanner cfg))
  | step (s : Scanner) (k : Nat) (r : ScanResult) :
    Reachable cfg s → Reachable cfg (s.step k r)

/-- The number of launched workers that have not left `handlerLoop`. -/
def Scanner.running (s : Scanner) : Nat :=
  (s.workers.filter fun w => !w.exited).length

/-- A result that ends a segment: a success without continuation key. -/
def ScanResult.terminal : ScanResult → Bool
  | .ok resp => resp.LastEvaluatedKey.isNone
  | .err _ => false

/-- A failed `Scan` call. -/
def ScanResult.failed : ScanResult → Bool
  | .ok _ => false
  | .err _ => true

/-! ## Reference functions used in the statements -/

/-- The successful results of a result sequence, in order. -/
def successes : List ScanResult → List ScanOutput
  | [] => []
  | .ok resp :: rs => resp :: successes rs
  | .err _ :: rs => successes rs

/-- The continuation key a worker holds after the results `rs` when it held
`k` before them: the `LastEvaluatedKey` of the last successful result of
`rs`, and `k` when `rs` has no successful result. -/
def keyFrom (k : Option AttrMap) (rs : List ScanResult) : Option AttrMap :=
  match (successes rs).getLast? with
  | some resp => resp.LastEvaluatedKey
  | none => k

/-- The continuation key a client has handed out last in `rs`: the
`LastEvaluatedKey` of the last successful result, `none` when there is no
successful result. -/
def lastKey (rs : List ScanResult) : Option AttrMap :=
  keyFrom none rs

/-- The pages a worker reads from a sequence of pages: all pages up to and
including the first one without continuation key. -/
def pagesRead : List ScanOutput → List ScanOutput
  | [] => []
  | p :: ps => if p.LastEvaluatedKey = none then [p] else p :: pagesRead ps

/-- The number of consecutive failed results at the end of `rs`. -/
def consecutiveFailures (rs : List ScanResult) : Nat :=
  (rs.reverse.takeWhile ScanResult.failed).length

/-- The process with offset `o` among cooperating processes that own
`segmentCount` segments each, out of `totalSegments`. -/
def processConfig (tableName : String) (segmentCount totalSegments limit : Int) (o : Nat) :
    Config :=
  { TableName := tableName
    SegmentCount := segmentCount
    SegmentOffset := o
    TotalSegments := totalSegments
    Limit := limit }

/-! ## The end-to-end scenario of the specification -/

/-- The configuration `{SegmentCount: 2, TotalSegments: 2, Limit: 10}`. -/
def scenarioConfig : Config :=
  { TableName := "table", SegmentCount := 2, SegmentOffset := 0, TotalSegments := 2,
    Limit := 10 }

/-- A page of `n` records, with continuation key `key`. -/
def scenarioPage (n : Nat) (key : Option AttrMap) : ScanResult :=
  .ok { Items := List.replicate n [("id", "x")], LastEvaluatedKey := key }

/-- The scenario: after `Start`, segment 0 receives a page of 10 records with
a continuation key, segment 1 receives its only page of 5 records, and
segment 0 receives its last page of 3 records.  The list holds the states
after `Start` and after each of the three steps. -/
def scenarioStates : List Scanner :=
  let s₀ := Start (NewScanner scenarioConfig)
  let s₁ := s₀.step 0 (scenarioPage 10 (some [("id", "10")]))
  let s₂ := s₁.step 1 (scenarioPage 5 none)
  let s₃ := s₂.step 0 (scenarioPage 3 none)
  [s₀, s₁, s₂, s₃]

/-- What the history of a worker says about it: it has left `handlerLoop`
exactly when the last result it received ends the segment; it has called
`Done` once if it has left and never otherwise; and its log and locals are
those of `handlerLoop` run on the results it received (a worker inside the
loop standing in its next `Scan` call). -/
def Worker.Inv (cfg : Config) (w : Worker) : Prop :=
  (w.exited = match w.received.getLast? with
    | some r => r.terminal
    | none => false) ∧
  doneCount w.log = (if w.exited then 1 else 0) ∧
  handlerLoop.loop cfg w.segment handlerLoop.init w.received =
    ⟨w.log ++ (if w.exited then []
        else [.scan (handlerLoop.params cfg w.segment w.st.lastEvaluatedKey)]),
      if w.exited then none else some w.st⟩

/-- The invariant of the system of one scanner with configuration `cfg`. -/
def Scanner.Inv (cfg : Config) (s : Scanner) : Prop :=
  s.config = cfg ∧ s.waitGroup = s.running ∧
    s.segments = (Start (NewScanner cfg)).segments ∧ ∀ w ∈ s.workers, w.Inv cfg

/-! ## One iteration and the loop, case by case -/

theorem params_key (cfg : Config) (segment : Int) (k : Option AttrMap) :
    (handlerLoop.params cfg segment k).ExclusiveStartKey = k := by
  cases k <;> simp [handlerLoop.params]

theorem params_segment (cfg : Config) (segment : Int) (k : Option AttrMap) :
    (handlerLoop.params cfg segment k).Segment = segment ∧
      (handlerLoop.params cfg segment k).TotalSegments = cfg.TotalSegments ∧
      (handlerLoop.params cfg segment k).TableName = cfg.TableName ∧
      (handlerLoop.params cfg segment k).Limit = cfg.Limit := by
  cases k <;> simp [handlerLoop.params]

theorem body_err (cfg : Config) (segment : Int) (st : LoopState) (e : String) :
    handlerLoop.body cfg segment st (.err e) =
      ([.scan (handlerLoop.params cfg segment st.lastEvaluatedKey), .println e,
          .sleep st.bk.attempt],
        some ⟨st.lastEvaluatedKey, ⟨st.bk.attempt + 1, st.bk.Max, st.bk.Jitter⟩⟩) :=
  rfl

theorem body_ok_last (cfg : Config) (segment : Int) (st : LoopState) (resp : ScanOutput)
    (h : resp.LastEvaluatedKey = none) :
    handlerLoop.body cfg segment st (.ok resp) =
      ([.scan (handlerLoop.params cfg segment st.lastEvaluatedKey), .handleItems resp.Items,
          .done], none) := by
  simp [handlerLoop.body, h]

theorem body_ok_more (cfg : Config) (segment : Int) (st : LoopState) (resp : ScanOutput)
    (h : resp.LastEvaluatedKey ≠ none) :
    handlerLoop.body cfg segment st (.ok resp) =
      ([.scan (handlerLoop.params cfg segment st.lastEvaluatedKey), .handleItems resp.Items],
        some { lastEvaluatedKey := resp.LastEvaluatedKey, bk := st.bk.Reset }) := by
  simp [handlerLoop.body, h]

theorem loop_nil (cfg : Config) (segment : Int) (st : LoopState) :
    handlerLoop.loop cfg segment st [] =
      ⟨[.scan (handlerLoop.params cfg segment st.lastEvaluatedKey)], some st⟩ :=
  rfl

theorem loop_err (cfg : Config) (segment : Int) (st : LoopState) (e : String)
    (rs : List ScanResult) :
    handlerLoop.loop cfg segment st (.err e :: rs) =
      ⟨.scan (handlerLoop.params cfg segment st.lastEvaluatedKey) :: .println e ::
          .sleep st.bk.attempt ::
          (handlerLoop.loop cfg segment
            ⟨st.lastEvaluatedKey, ⟨st.bk.attempt + 1, st.bk.Max, st.bk.Jitter⟩⟩ rs).events,
        (handlerLoop.loop cfg segment
            ⟨st.lastEvaluatedKey, ⟨st.bk.attempt + 1, st.bk.Max, st.bk.Jitter⟩⟩ rs).final⟩ := by
  simp [handlerLoop.loop, body_err]

theorem loop_ok_last (cfg : Config) (segment : Int) (st : LoopState) (resp : ScanOutput)
    (rs : List ScanResult) (h : resp.LastEvaluatedKey = none) :
    handlerLoop.loop cfg segment st (.ok resp :: rs) =
      ⟨[.scan (handlerLoop.params cfg segment st.lastEvaluatedKey), .handleItems resp.Items,
          .done], none⟩ := by
  simp [handlerLoop.loop, body_ok_last _ _ _ _ h]

theorem loop_ok_more (cfg : Config) (segment : Int) (st : LoopState) (resp : ScanOutput)
    (rs : List ScanResult) (h : resp.LastEvaluatedKey ≠ none) :
    handlerLoop.loop cfg segment st (.ok resp :: rs) =
      ⟨.scan (handlerLoop.params cfg segment st.lastEvaluatedKey) ::
          .handleItems resp.Items ::
          (handlerLoop.loop cfg segment
            { lastEvaluatedKey := resp.LastEvaluatedKey, bk := st.bk.Reset } rs).events,
        (handlerLoop.loop cfg segment
            { lastEvaluatedKey := resp.LastEvaluatedKey, bk := st.bk.Reset } rs).final⟩ := by
  simp [handlerLoop.loop, body_ok_more _ _ _ _ h]

/-! ## Coverage -/

theorem loop_pages (cfg : Config) (segment : Int) (pages : List ScanOutput)
    (last : ScanOutput) (extra : List ScanResult)
    (hmore : ∀ p ∈ pages, p.LastEvaluatedKey ≠ none) (hlast : last.LastEvaluatedKey = none) :
    ∀ st : LoopState,
      handled (handlerLoop.loop cfg segment st
          ((pages ++ [last]).map ScanResult.ok ++ extra)).events =
        (pages ++ [last]).map ScanOutput.Items ∧
      (requests (handlerLoop.loop cfg segment st
          ((pages ++ [last]).map ScanResult.ok ++ extra)).events).length = pages.length + 1 ∧
      doneCount (handlerLoop.loop cfg segment st
          ((pages ++ [last]).map ScanResult.ok ++ extra)).events = 1 ∧
      (handlerLoop.loop cfg segment st
          ((pages ++ [last]).map ScanResult.ok ++ extra)).events.getLast? = some Event.done ∧
      (handlerLoop.loop cfg segment st
          ((pages ++ [last]).map ScanResult.ok ++ extra)).final = none := by
  induction pages with
  | nil =>
    intro st
    simp [loop_ok_last _ _ _ _ _ hlast, handled, requests, doneCount]
  | cons p ps ih =>
    intro st
    have hp : p.LastEvaluatedKey ≠ none := hmore p (List.mem_cons_self _ _)
    have ih' := ih (fun q hq => hmore q (List.mem_cons_of_mem _ hq))
      { lastEvaluatedKey := p.LastEvaluatedKey, bk := st.bk.Reset }
    obtain ⟨h1, h2, h3, h4, h5⟩ := ih'
    simp only [List.cons_append, List.map_cons, loop_ok_more _ _ _ _ _ hp, handled, requests,
      List.length_cons]
    refine ⟨by rw [h1], by rw [h2], ?_, ?_, h5⟩
    · simpa [doneCount, List.count_cons] using h3
    · rw [List.getLast?_cons_cons, List.getLast?_cons]
      rw [h4]; rfl

/-- C1 (coverage).  For every segment index and every client that answers a
worker with K ≥ 1 successful results, the first K-1 with a continuation key
and the K-th without one (followed by whatever else it may hold ready),
`handlerLoop` calls the handler exactly K times, the n-th call with exactly
the items of the n-th result, so that the records delivered are those of the
pages, each once and in page order; it issues exactly K `Scan` calls, and
then returns, calling `Done` once as its last action. -/
theorem handlerLoop_coverage (cfg : Config) (segment : Int) (pages : List ScanOutput)
    (last : ScanOutput) (extra : List ScanResult)
    (hmore : ∀ p ∈ pages, p.LastEvaluatedKey ≠ none) (hlast : last.LastEvaluatedKey = none) :
    handled (handlerLoop cfg segment ((pages ++ [last]).map ScanResult.ok ++ extra)).events =
        (pages ++ [last]).map ScanOutput.Items ∧
      (handled (handlerLoop cfg segment
          ((pages ++ [last]).map ScanResult.ok ++ extra)).events).flatten =
        ((pages ++ [last]).map ScanOutput.Items).flatten ∧
      (handled (handlerLoop cfg segment
          ((pages ++ [last]).map ScanResult.ok ++ extra)).events).length = pages.length + 1 ∧
      (requests (handlerLoop cfg segment
          ((pages ++ [last]).map ScanResult.ok ++ extra)).events).length = pages.length + 1 ∧
      doneCount (handlerLoop cfg segment
          ((pages ++ [last]).map ScanResult.ok ++ extra)).events = 1 ∧
      (handlerLoop cfg segment
          ((pages ++ [last]).map ScanResult.ok ++ extra)).events.getLast? = some Event.done ∧
      (handlerLoop cfg segment
          ((pages ++ [last]).map ScanResult.ok ++ extra)).final = none := by
  obtain ⟨h1, h2, h3, h4, h5⟩ :=
    loop_pages cfg segment pages last extra hmore hlast handlerLoop.init
  refine ⟨h1, ?_, ?_, h2, h3, h4, h5⟩
  · unfold handlerLoop; rw [h1]
  · unfold handlerLoop; rw [h1]; simp

/-! ## Continuation keys -/

theorem successes_append (rs rs' : List ScanResult) :
    successes (rs ++ rs') = successes rs ++ successes rs' := by
  induction rs with
  | nil => rfl
  | cons r rs ih => cases r <;> simp [successes, ih]

theorem successes_map_err (errs : List String) :
    successes (errs.map ScanResult.err) = [] := by
  induction errs with
  | nil => rfl
  | cons e es ih => simpa [successes] using ih

theorem keyFrom_nil (k : Option AttrMap) : keyFrom k [] = k :=
  rfl

theorem keyFrom_err (k : Option AttrMap) (e : String) (rs : List ScanResult) :
    keyFrom k (.err e :: rs) = keyFrom k rs :=
  rfl

theorem keyFrom_ok (k : Option AttrMap) (resp : ScanOutput) (rs : List ScanResult) :
    keyFrom k (.ok resp :: rs) = keyFrom resp.LastEvaluatedKey rs := by
  unfold keyFrom
  simp only [successes, List.getLast?_cons]
  cases h : (successes rs).getLast? <;> simp

theorem keyFrom_snoc_ok (k : Option AttrMap) (rs : List ScanResult) (resp : ScanOutput) :
    keyFrom k (rs ++ [.ok resp]) = resp.LastEvaluatedKey := by
  unfold keyFrom
  simp [successes_append, successes]

theorem keyFrom_append_errs (k : Option AttrMap) (rs : List ScanResult) (errs : List String) :
    keyFrom k (rs ++ errs.map ScanResult.err) = keyFrom k rs := by
  unfold keyFrom
  simp [successes_append, successes_map_err]

theorem loop_requests (cfg : Config) (segment : Int) :
    ∀ (rs : List ScanResult) (st : LoopState) (i : Nat) (p : ScanInput),
      (requests (handlerLoop.loop cfg segment st rs).events)[i]? = some p →
        p = handlerLoop.params cfg segment (keyFrom st.lastEvaluatedKey (rs.take i)) := by
  intro rs
  induction rs with
  | nil =>
    intro st i p h
    cases i with
    | zero => simpa [loop_nil, requests, keyFrom_nil] using h.symm
    | succ i => simp [loop_nil, requests] at h
  | cons r rs ih =>
    intro st i p h
    cases i with
    | zero =>
      cases r with
      | err e => simpa [loop_err, requests, keyFrom_nil] using h.symm
      | ok resp =>
        by_cases hk : resp.LastEvaluatedKey = none
        · simpa [loop_ok_last _ _ _ _ _ hk, requests, keyFrom_nil] using h.symm
        · simpa [loop_ok_more _ _ _ _ _ hk, requests, keyFrom_nil] using h.symm
    | succ i =>
      cases r with
      | err e =>
        simp only [loop_err, requests, List.getElem?_cons_succ] at h
        simpa [keyFrom_err] using ih _ i p h
      | ok resp =>
        by_cases hk : resp.LastEvaluatedKey = none
        · simp [loop_ok_last _ _ _ _ _ hk, requests] at h
        · simp only [loop_ok_more _ _ _ _ _ hk, requests, List.getElem?_cons_succ] at h
          simpa [keyFrom_ok] using ih _ i p h

theorem loop_requests_head (cfg : Config) (segment : Int) (st : LoopState)
    (rs : List ScanResult) :
    (requests (handlerLoop.loop cfg segment st rs).events).head? =
      some (handlerLoop.params cfg segment st.lastEvaluatedKey) := by
  cases rs with
  | nil => rfl
  | cons r rs =>
    cases r with
    | err e => simp [loop_err, requests]
    | ok resp =>
      by_cases hk : resp.LastEvaluatedKey = none
      · simp [loop_ok_last _ _ _ _ _ hk, requests]
      · simp [loop_ok_more _ _ _ _ _ hk, requests]

/-- C2 (continuation correctness).  In every run of `handlerLoop`, whatever
the client returns: a first request is issued and it carries no
`ExclusiveStartKey`; every request carries as `ExclusiveStartKey` the
`LastEvaluatedKey` of the last successful result before it (none when no
result before it was successful); in particular each request issued right
after a successful result carries the `LastEvaluatedKey` of that result. -/
theorem handlerLoop_continuation (cfg : Config) (segment : Int) (rs : List ScanResult) :
    (∃ p, (requests (handlerLoop cfg segment rs).events).head? = some p ∧
        p.ExclusiveStartKey = none) ∧
      (∀ (i : Nat) (p : ScanInput),
        (requests (handlerLoop cfg segment rs).events)[i]? = some p →
          p.ExclusiveStartKey = lastKey (rs.take i)) ∧
      (∀ (i : Nat) (resp : ScanOutput) (p : ScanInput),
        rs[i]? = some (.ok resp) →
          (requests (handlerLoop cfg segment rs).events)[i + 1]? = some p →
            p.ExclusiveStartKey = resp.LastEvaluatedKey) := by
  refine ⟨⟨_, loop_requests_head cfg segment handlerLoop.init rs, ?_⟩, ?_, ?_⟩
  · simp [params_key, handlerLoop.init]
  · intro i p h
    rw [loop_requests cfg segment rs handlerLoop.init i p h, params_key]
    rfl
  · intro i resp p hi h
    rw [loop_requests cfg segment rs handlerLoop.init (i + 1) p h, params_key,
      List.take_succ, hi]
    exact keyFrom_snoc_ok _ _ _

/-! ## Failing fetches -/

theorem loop_errs (cfg : Config) (segment : Int) (errs : List String) :
    ∀ st : LoopState,
      requests (handlerLoop.loop cfg segment st (errs.map ScanResult.err)).events =
          List.replicate (errs.length + 1)
            (handlerLoop.params cfg segment st.lastEvaluatedKey) ∧
        handled (handlerLoop.loop cfg segment st (errs.map ScanResult.err)).events = [] ∧
        doneCount (handlerLoop.loop cfg segment st (errs.map ScanResult.err)).events = 0 ∧
        sleeps (handlerLoop.loop cfg segment st (errs.map ScanResult.err)).events =
          (List.range errs.length).map (fun k => st.bk.attempt + k) ∧
        (handlerLoop.loop cfg segment st (errs.map ScanResult.err)).final =
          some ⟨st.lastEvaluatedKey, ⟨st.bk.attempt + errs.length, st.bk.Max, st.bk.Jitter⟩⟩ := by
  induction errs with
  | nil =>
    intro st
    simp [loop_nil, requests, handled, doneCount, sleeps]
  | cons e es ih =>
    intro st
    obtain ⟨h1, h2, h3, h4, h5⟩ :=
      ih ⟨st.lastEvaluatedKey, ⟨st.bk.attempt + 1, st.bk.Max, st.bk.Jitter⟩⟩
    dsimp only at h1 h4 h5
    rw [List.map_cons, loop_err]
    refine ⟨?_, ?_, ?_, ?_, ?_⟩
    · simp only [requests, h1, List.length_cons]
      rfl
    · simpa only [handled] using h2
    · simpa [doneCount, List.count_cons] using h3
    · simp only [sleeps, h4, List.length_cons]
      rw [List.range_succ_eq_map]
      simp [Function.comp_def, Nat.add_assoc, Nat.add_comm 1]
    · rw [h5]; simp [Nat.add_assoc, Nat.add_comm 1]

/-- C6 (indefinite retry).  For every N ≥ 0, if the client returns an error on
each of the first N `Scan` calls of a worker, the worker has issued N+1
`Scan` calls, all with the same request without continuation key, is still
inside its loop (waiting in the (N+1)-th call), has not called `Done`, has
not called the handler, and has slept N times. -/
theorem handlerLoop_indefinite_retry (cfg : Config) (segment : Int) (errs : List String) :
    requests (handlerLoop cfg segment (errs.map ScanResult.err)).events =
        List.replicate (errs.length + 1) (handlerLoop.params cfg segment none) ∧
      (handlerLoop.params cfg segment none).ExclusiveStartKey = none ∧
      (∃ st, (handlerLoop cfg segment (errs.map ScanResult.err)).final = some st ∧
        st.lastEvaluatedKey = none) ∧
      doneCount (handlerLoop cfg segment (errs.map ScanResult.err)).events = 0 ∧
      handled (handlerLoop cfg segment (errs.map ScanResult.err)).events = [] ∧
      (sleeps (handlerLoop cfg segment (errs.map ScanResult.err)).events).length =
        errs.length := by
  obtain ⟨h1, h2, h3, h4, h5⟩ := loop_errs cfg segment errs handlerLoop.init
  refine ⟨h1, rfl, ⟨_, h5, rfl⟩, h3, h2, ?_⟩
  unfold handlerLoop
  rw [h4]
  simp

/-! ## Pages delivered to the handler -/

theorem loop_handled (cfg : Config) (segment : Int) :
    ∀ (rs : List ScanResult) (st : LoopState),
      handled (handlerLoop.loop cfg segment st rs).events =
        (pagesRead (successes rs)).map ScanOutput.Items := by
  intro rs
  induction rs with
  | nil => intro st; rfl
  | cons r rs ih =>
    intro st
    cases r with
    | err e => simpa [loop_err, handled, successes] using ih _
    | ok resp =>
      by_cases hk : resp.LastEvaluatedKey = none
      · simp [loop_ok_last _ _ _ _ _ hk, handled, successes, pagesRead, hk]
      · simpa [loop_ok_more _ _ _ _ _ hk, handled, successes, pagesRead, hk] using ih _

theorem successes_filter (rs : List ScanResult) :
    successes (rs.filter fun r => !r.failed) = successes rs := by
  induction rs with
  | nil => rfl
  | cons r rs ih =>
    cases r with
    | ok resp =>
      have hf : (ScanResult.ok resp).failed = false := rfl
      simp [List.filter_cons, hf, successes, ih]
    | err e =>
      have hf : (ScanResult.err e).failed = true := rfl
      simp [List.filter_cons, hf, successes, ih]

theorem successes_more (rs : List ScanResult) (h : ∀ r ∈ rs, r.terminal = false) :
    ∀ p ∈ successes rs, p.LastEvaluatedKey ≠ none := by
  induction rs with
  | nil => intro p hp; simp [successes] at hp
  | cons r rs ih =>
    have ih' := ih fun q hq => h q (List.mem_cons_of_mem _ hq)
    cases r with
    | err e => simpa [successes] using ih'
    | ok resp =>
      have hr := h (.ok resp) (List.mem_cons_self _ _)
      intro p hp
      simp only [successes, List.mem_cons] at hp
      rcases hp with rfl | hp
      · intro hnone
        simp [ScanResult.terminal, hnone] at hr
      · exact ih' p hp

theorem pagesRead_append (ps qs : List ScanOutput)
    (h : ∀ p ∈ ps, p.LastEvaluatedKey ≠ none) :
    pagesRead (ps ++ qs) = ps ++ pagesRead qs := by
  induction ps with
  | nil => rfl
  | cons p ps ih =>
    have hp := h p (List.mem_cons_self _ _)
    simp [pagesRead, hp, ih fun q hq => h q (List.mem_cons_of_mem _ hq)]

theorem pagesRead_cons_head (p : ScanOutput) (ps : List ScanOutput) :
    (pagesRead (p :: ps)).head? = some p := by
  by_cases hp : p.LastEvaluatedKey = none <;> simp [pagesRead, hp]

theorem loop_requests_length (cfg : Config) (segment : Int) :
    ∀ (rs : List ScanResult) (st : LoopState) (rest : List ScanResult),
      (∀ r ∈ rs, r.terminal = false) →
        rs.length < (requests (handlerLoop.loop cfg segment st (rs ++ rest)).events).length := by
  intro rs
  induction rs with
  | nil =>
    intro st rest _
    have h := loop_requests_head cfg segment st rest
    cases hreq : requests (handlerLoop.loop cfg segment st rest).events with
    | nil => simp [hreq] at h
    | cons a l => simp [hreq]
  | cons r rs ih =>
    intro st rest h
    have ih' := fun st => ih st rest fun q hq => h q (List.mem_cons_of_mem _ hq)
    cases r with
    | err e =>
      simp only [List.cons_append, loop_err, requests, List.length_cons]
      exact Nat.succ_lt_succ (ih' _)
    | ok resp =>
      have hr := h (.ok resp) (List.mem_cons_self _ _)
      have hk : resp.LastEvaluatedKey ≠ none := by
        intro hnone
        simp [ScanResult.terminal, hnone] at hr
      simp only [List.cons_append, loop_ok_more _ _ _ _ _ hk, requests, List.length_cons]
      exact Nat.succ_lt_succ (ih' _)

theorem terminal_false_append_errs (pre : List ScanResult) (errs : List String)
    (h : ∀ r ∈ pre, r.terminal = false) :
    ∀ r ∈ pre ++ errs.map ScanResult.err, r.terminal = false := by
  intro r hr
  rcases List.mem_append.1 hr with hr | hr
  · exact h r hr
  · obtain ⟨e, _, rfl⟩ := List.mem_map.1 hr
    rfl

/-- C3 (retry without skipping).  Let a worker be running after the results
`pre`, and let the client then fail M ≥ 0 consecutive times and succeed with
`resp`.  The M+1 requests from the first failing one to the succeeding one
are the same request, with the continuation key held after `pre`; the
failures cause no handler call; the page of `resp` is delivered to the
handler right after the pages of `pre`; and the pages delivered are those
delivered when the failing results are removed from the stream (these M, or
all failing results of any stream). -/
theorem handlerLoop_retry (cfg : Config) (segment : Int) (pre : List ScanResult)
    (errs : List String) (resp : ScanOutput) (rest : List ScanResult)
    (hpre : ∀ r ∈ pre, r.terminal = false) :
    (∀ j, j ≤ errs.length →
        (requests (handlerLoop cfg segment
            (pre ++ errs.map ScanResult.err ++ .ok resp :: rest)).events)[pre.length + j]? =
          some (handlerLoop.params cfg segment (lastKey pre))) ∧
      handled (handlerLoop cfg segment (pre ++ errs.map ScanResult.err)).events =
        handled (handlerLoop cfg segment pre).events ∧
      (handled (handlerLoop cfg segment
          (pre ++ errs.map ScanResult.err ++ .ok resp :: rest)).events)[(successes pre).length]? =
        some resp.Items ∧
      handled (handlerLoop cfg segment
          (pre ++ errs.map ScanResult.err ++ .ok resp :: rest)).events =
        handled (handlerLoop cfg segment (pre ++ .ok resp :: rest)).events ∧
      (∀ rs : List ScanResult,
        handled (handlerLoop cfg segment rs).events =
          handled (handlerLoop cfg segment (rs.filter fun r => !r.failed)).events) := by
  refine ⟨?_, ?_, ?_, ?_, ?_⟩
  · intro j hj
    have hlen := loop_requests_length cfg segment (pre ++ errs.map ScanResult.err)
      handlerLoop.init (.ok resp :: rest) (terminal_false_append_errs pre errs hpre)
    have hlt : pre.length + j <
        (requests (handlerLoop cfg segment
          (pre ++ errs.map ScanResult.err ++ .ok resp :: rest)).events).length := by
      have : (pre ++ errs.map ScanResult.err).length = pre.length + errs.length := by simp
      unfold handlerLoop
      omega
    rw [List.getElem?_eq_getElem hlt]
    have hget := loop_requests cfg segment _ handlerLoop.init (pre.length + j) _
      (List.getElem?_eq_getElem hlt)
    rw [hget]
    congr 2
    have htake : List.take (pre.length + j)
        (pre ++ errs.map ScanResult.err ++ .ok resp :: rest) =
        pre ++ (errs.take j).map ScanResult.err := by
      rw [List.append_assoc, List.take_append, List.take_append_of_le_length (by simpa using hj),
        List.map_take]
    rw [htake]
    exact keyFrom_append_errs _ _ _
  · unfold handlerLoop
    rw [loop_handled, loop_handled, successes_append, successes_map_err, List.append_nil]
  · unfold handlerLoop
    rw [loop_handled, successes_append, successes_append, successes_map_err, List.append_nil,
      pagesRead_append _ _ (successes_more pre hpre), List.map_append,
      List.getElem?_append_right (by simp)]
    simp only [List.length_map, Nat.sub_self, successes]
    have h := pagesRead_cons_head resp (successes rest)
    cases hp : pagesRead (resp :: successes rest) with
    | nil => simp [hp] at h
    | cons a l =>
      simp only [hp, List.head?_cons, Option.some.injEq] at h
      simp [h]
  · unfold handlerLoop
    rw [loop_handled, loop_handled, successes_append, successes_append, successes_append,
      successes_map_err, List.append_nil]
  · intro rs
    unfold handlerLoop
    rw [loop_handled, loop_handled, successes_filter]

/-! ## Backoff -/

theorem consecutiveFailures_snoc_err (rs : List ScanResult) (e : String) :
    consecutiveFailures (rs ++ [.err e]) = consecutiveFailures rs + 1 := by
  simp [consecutiveFailures, List.takeWhile_cons, ScanResult.failed]

theorem consecutiveFailures_snoc_ok (rs : List ScanResult) (resp : ScanOutput) :
    consecutiveFailures (rs ++ [.ok resp]) = 0 := by
  simp [consecutiveFailures, List.takeWhile_cons, ScanResult.failed]

theorem foldl_attempt (rs : List ScanResult) :
    rs.foldl (fun a r => if r.failed then a + 1 else 0) 0 = consecutiveFailures rs := by
  induction rs using List.reverseRecOn with
  | nil => rfl
  | append_singleton l r ih =>
    rw [List.foldl_append, ih]
    cases r with
    | ok resp => simp [consecutiveFailures_snoc_ok, ScanResult.failed]
    | err e => simp [consecutiveFailures_snoc_err, ScanResult.failed]

theorem loop_snoc_err (cfg : Config) (segment : Int) (e : String) :
    ∀ (rs : List ScanResult) (st : LoopState),
      (∀ r ∈ rs, r.terminal = false) →
        (handlerLoop.loop cfg segment st (rs ++ [.err e])).events =
          (handlerLoop.loop cfg segment st rs).events ++
            [.println e,
              .sleep (rs.foldl (fun a r => if r.failed then a + 1 else 0) st.bk.attempt),
              .scan (handlerLoop.params cfg segment (keyFrom st.lastEvaluatedKey rs))] := by
  intro rs
  induction rs with
  | nil =>
    intro st _
    simp [loop_err, loop_nil, keyFrom_nil]
  | cons r rs ih =>
    intro st h
    have ih' := fun st => ih st fun q hq => h q (List.mem_cons_of_mem _ hq)
    cases r with
    | err e' =>
      simp only [List.cons_append, loop_err, ih', List.foldl_cons, keyFrom_err]
      simp [ScanResult.failed]
    | ok resp =>
      have hr := h (.ok resp) (List.mem_cons_self _ _)
      have hk : resp.LastEvaluatedKey ≠ none := by
        intro hnone
        simp [ScanResult.terminal, hnone] at hr
      simp only [List.cons_append, loop_ok_more _ _ _ _ _ hk, ih', List.foldl_cons, keyFrom_ok]
      simp [ScanResult.failed, Backoff.Reset]

/-- C9 (backoff reset and advance).  With the backoff state an attempt counter
that `Duration()` reads and then increments and `Reset()` sets to zero: when
a worker that is running after the results `rs` gets one more failed result,
it prints the error, sleeps for the delay of attempt number k-1, where k ≥ 1
is the number of consecutive failed results ending at this one (since the
last successful result, or since the start), and issues the same request
again.  In particular a failure that is the first result or follows a
successful result uses attempt 0, and each further consecutive failure uses
the next attempt number. -/
theorem handlerLoop_backoff (cfg : Config) (segment : Int) (rs : List ScanResult) (e : String)
    (hrun : ∀ r ∈ rs, r.terminal = false) :
    (handlerLoop cfg segment (rs ++ [.err e])).events =
        (handlerLoop cfg segment rs).events ++
          [.println e, .sleep (consecutiveFailures (rs ++ [.err e]) - 1),
            .scan (handlerLoop.params cfg segment (lastKey rs))] ∧
      1 ≤ consecutiveFailures (rs ++ [.err e]) ∧
      (rs = [] → consecutiveFailures (rs ++ [.err e]) - 1 = 0) ∧
      (∀ pre resp, rs = pre ++ [.ok resp] → consecutiveFailures (rs ++ [.err e]) - 1 = 0) ∧
      (∀ pre e', rs = pre ++ [.err e'] →
        consecutiveFailures (rs ++ [.err e]) - 1 = (consecutiveFailures rs - 1) + 1) := by
  refine ⟨?_, ?_, ?_, ?_, ?_⟩
  · unfold handlerLoop
    rw [loop_snoc_err cfg segment e rs handlerLoop.init hrun, consecutiveFailures_snoc_err]
    have h0 : handlerLoop.init.bk.attempt = 0 := rfl
    rw [h0, foldl_attempt]
    rfl
  · rw [consecutiveFailures_snoc_err]; omega
  · rintro rfl
    rfl
  · rintro pre resp rfl
    rw [consecutiveFailures_snoc_err, consecutiveFailures_snoc_ok]
  · rintro pre e' rfl
    rw [consecutiveFailures_snoc_err, consecutiveFailures_snoc_err]
    omega

/-! ## `Start` -/

theorem wrapInt_of_isInt (x : Int) (h : IsInt x) : wrapInt x = x := by
  unfold wrapInt
  unfold IsInt at h
  omega

theorem wrapInt_add_left (x y : Int) : wrapInt (wrapInt x + y) = wrapInt (x + y) := by
  unfold wrapInt
  omega

theorem wrapInt_add_inj (c i j : Int) (hi : 0 ≤ i) (hi' : i < 2 ^ 63) (hj : 0 ≤ j)
    (hj' : j < 2 ^ 63) (h : wrapInt (c + i) = wrapInt (c + j)) : i = j := by
  unfold wrapInt at h
  omega

theorem Start_body_config (s : Scanner) (i : Int) : (Start.body s i).config = s.config :=
  rfl

theorem Start_loop_spec :
    ∀ (n : Nat) (s : Scanner) (i : Int), 0 ≤ i → (s.config.SegmentCount - i).toNat = n →
      IsInt s.config.SegmentCount →
        Start.loop n s i =
          { waitGroup := s.waitGroup + n
            config := s.config
            workers := s.workers ++ (List.range n).map fun k : Nat =>
              Worker.spawn
                (wrapInt (s.config.SegmentCount * s.config.SegmentOffset + (i + k))) } := by
  intro n
  induction n with
  | zero =>
    intro s i _ _ _
    simp [Start.loop]
  | succ n ih =>
    intro s i hi hn hint
    have hlt : i < s.config.SegmentCount := by omega
    have hwrap : wrapInt (i + 1) = i + 1 := by
      apply wrapInt_of_isInt
      unfold IsInt at hint ⊢
      omega
    rw [Start.loop, if_pos hlt, hwrap,
      ih (Start.body s i) (i + 1) (by omega) (by rw [Start_body_config]; omega)
        (by rw [Start_body_config]; exact hint)]
    simp only [Start.body, wrapInt_add_left, List.range_succ_eq_map, List.map_cons, List.map_map,
      List.append_assoc, List.singleton_append, Nat.cast_zero, add_zero, Nat.cast_succ]
    congr 1
    · omega
    · congr 2
      apply List.map_congr_left
      intro k _
      simp only [Function.comp, Nat.cast_succ]
      congr 2
      omega

theorem Start_loop_fuel :
    ∀ (n extra : Nat) (s : Scanner) (i : Int), 0 ≤ i → (s.config.SegmentCount - i).toNat = n →
      IsInt s.config.SegmentCount → Start.loop (n + extra) s i = Start.loop n s i := by
  intro n
  induction n with
  | zero =>
    intro extra s i _ hn _
    cases extra with
    | zero => rfl
    | succ m =>
      have hge : ¬ i < s.config.SegmentCount := by omega
      simp [Start.loop, hge]
  | succ n ih =>
    intro extra s i hi hn hint
    have hlt : i < s.config.SegmentCount := by omega
    have hwrap : wrapInt (i + 1) = i + 1 := by
      apply wrapInt_of_isInt
      unfold IsInt at hint ⊢
      omega
    rw [show n + 1 + extra = (n + extra) + 1 by omega, Start.loop, Start.loop, if_pos hlt,
      if_pos hlt, hwrap]
    exact ih extra (Start.body s i) (i + 1) (by omega) (by rw [Start_body_config]; omega)
      (by rw [Start_body_config]; exact hint)

theorem Start_spec (cfg : Config) (hint : IsInt cfg.SegmentCount) :
    Start (NewScanner cfg) =
      { waitGroup := cfg.SegmentCount.toNat
        config := cfg
        workers := (List.range cfg.SegmentCount.toNat).map fun k : Nat =>
          Worker.spawn (wrapInt (cfg.SegmentCount * cfg.SegmentOffset + k)) } := by
  unfold Start
  rw [Start_loop_spec _ _ 0 (le_refl 0) (by simp) hint]
  simp [NewScanner]

theorem Start_segments_eq (cfg : Config) (hint : IsInt cfg.SegmentCount) :
    (Start (NewScanner cfg)).segments =
      (List.range cfg.SegmentCount.toNat).map fun k : Nat =>
        wrapInt (cfg.SegmentCount * cfg.SegmentOffset + k) := by
  rw [Start_spec cfg hint]
  simp [Scanner.segments, Worker.spawn, Function.comp_def]

theorem loop_requests_mem (cfg : Config) (segment : Int) (st : LoopState)
    (rs : List ScanResult) (p : ScanInput)
    (hp : p ∈ requests (handlerLoop.loop cfg segment st rs).events) :
    p.Segment = segment ∧ p.TotalSegments = cfg.TotalSegments := by
  obtain ⟨i, hi, hget⟩ := List.getElem_of_mem hp
  have h := loop_requests cfg segment rs st i p (by rw [List.getElem?_eq_getElem hi, hget])
  rw [h]
  exact ⟨(params_segment _ _ _).1, (params_segment _ _ _).2.1⟩

/-- C4 (segment indexing).  For every configuration (of Go `int`s), `Start`
on a new scanner launches exactly `SegmentCount` workers, none when
`SegmentCount ≤ 0`, each at the entry of `handlerLoop`, and raises the wait
group counter by as many; the loop ends by its own guard.  The workers are
bound, in launch order, to the values of `SegmentCount * SegmentOffset + i`
for `i = 0 .. SegmentCount-1`, the product and the sum being those of Go's
`int` arithmetic (the exact value whenever that is an `int`); these indices
are pairwise distinct, and every request of a worker carries its index.  For
`SegmentCount = 3`, `SegmentOffset = 2`, `TotalSegments = 12` the indices are
exactly 6, 7, 8. -/
theorem Start_segment_indexing (cfg : Config) (hwf : cfg.WF) :
    (Start (NewScanner cfg)).workers.length = cfg.SegmentCount.toNat ∧
      (Start (NewScanner cfg)).waitGroup = cfg.SegmentCount.toNat ∧
      (cfg.SegmentCount ≤ 0 → (Start (NewScanner cfg)).workers = []) ∧
      (Start (NewScanner cfg)).workers =
        (Start (NewScanner cfg)).segments.map Worker.spawn ∧
      (Start (NewScanner cfg)).segments =
        (List.range cfg.SegmentCount.toNat).map
          (fun i : Nat => wrapInt (cfg.SegmentCount * cfg.SegmentOffset + i)) ∧
      (∀ i : Nat, (i : Int) < cfg.SegmentCount →
        IsInt (cfg.SegmentCount * cfg.SegmentOffset + i) →
          (Start (NewScanner cfg)).segments[i]? =
            some (cfg.SegmentCount * cfg.SegmentOffset + i)) ∧
      (Start (NewScanner cfg)).segments.Nodup ∧
      (∀ extra : Nat,
        Start.loop (cfg.SegmentCount.toNat + extra) (NewScanner cfg) 0 =
          Start (NewScanner cfg)) ∧
      (∀ w ∈ (Start (NewScanner cfg)).workers, ∀ (rs : List ScanResult),
        ∀ p ∈ requests (handlerLoop cfg w.segment rs).events, p.Segment = w.segment) ∧
      (∀ (t : String) (l : Int),
        (Start (NewScanner
          { TableName := t, SegmentCount := 3, SegmentOffset := 2, TotalSegments := 12,
            Limit := l })).segments = [6, 7, 8]) := by
  have hint : IsInt cfg.SegmentCount := hwf.1
  have hseg := Start_segments_eq cfg hint
  refine ⟨?_, ?_, ?_, ?_, hseg, ?_, ?_, ?_, ?_, ?_⟩
  · rw [Start_spec cfg hint]; simp
  · rw [Start_spec cfg hint]
  · intro h
    rw [Start_spec cfg hint]
    have h0 : cfg.SegmentCount.toNat = 0 := by omega
    simp [h0]
  · rw [hseg, Start_spec cfg hint]
    simp [Function.comp_def]
  · intro i hi hrep
    have hlt : i < cfg.SegmentCount.toNat := by omega
    rw [hseg, List.getElem?_map, List.getElem?_range hlt]
    simp [wrapInt_of_isInt _ hrep]
  · rw [hseg]
    apply List.Nodup.map_on _ (List.nodup_range _)
    intro i hi j hj h
    rw [List.mem_range] at hi hj
    have hbound : cfg.SegmentCount < 2 ^ 63 := hint.2
    have := wrapInt_add_inj _ (i : Int) (j : Int) (by omega) (by omega) (by omega) (by omega) h
    omega
  · intro extra
    exact Start_loop_fuel _ extra (NewScanner cfg) 0 (le_refl 0) (by simp [NewScanner]) hint
  · intro w _ rs p hp
    exact (loop_requests_mem cfg w.segment handlerLoop.init rs p hp).1
  · intro t l
    have h3 : IsInt (3 : Int) := by decide
    rw [Start_segments_eq _ h3]
    show (List.range (3 : Int).toNat).map (fun k : Nat => wrapInt (3 * 2 + k)) = [6, 7, 8]
    decide

/-! ## Cooperating processes -/

theorem process_segments (t : String) (l segmentCount totalSegments : Int) (P o : Nat)
    (hcount : 1 ≤ segmentCount) (htotal : IsInt totalSegments)
    (hcover : totalSegments = segmentCount * P) (ho : o < P) :
    (Start (NewScanner (processConfig t segmentCount totalSegments l o))).segments =
      (List.range segmentCount.toNat).map fun k : Nat => segmentCount * o + k := by
  have hmul : segmentCount * ((o : Int) + 1) ≤ segmentCount * P :=
    Int.mul_le_mul_of_nonneg_left (by omega) (by omega)
  have hnonneg : 0 ≤ segmentCount * (o : Int) :=
    Int.mul_nonneg (by omega) (by omega)
  rw [mul_add, mul_one] at hmul
  have hint : IsInt segmentCount := by
    unfold IsInt at htotal ⊢
    omega
  rw [Start_segments_eq _ hint]
  apply List.map_congr_left
  intro k hk
  rw [List.mem_range] at hk
  apply wrapInt_of_isInt
  unfold IsInt at htotal ⊢
  simp only [processConfig] at hk ⊢
  omega

theorem mem_process_segments (t : String) (l segmentCount totalSegments : Int) (P o : Nat)
    (hcount : 1 ≤ segmentCount) (htotal : IsInt totalSegments)
    (hcover : totalSegments = segmentCount * P) (ho : o < P) (x : Int) :
    x ∈ (Start (NewScanner (processConfig t segmentCount totalSegments l o))).segments ↔
      segmentCount * o ≤ x ∧ x < segmentCount * o + segmentCount := by
  rw [process_segments t l segmentCount totalSegments P o hcount htotal hcover ho, List.mem_map]
  constructor
  · rintro ⟨k, hk, rfl⟩
    rw [List.mem_range] at hk
    omega
  · rintro ⟨h1, h2⟩
    refine ⟨(x - segmentCount * o).toNat, ?_, ?_⟩
    · rw [List.mem_range]; omega
    · omega

/-- C7 (full coverage across cooperating processes).  For every
`SegmentCount ≥ 1` and every number of processes `P` (in particular `P ≥ 1`)
with `TotalSegments = SegmentCount * P` (a Go `int`), when process `o`, for
`o = 0 .. P-1`, runs `Start` with `SegmentOffset = o`: no process launches an
index twice, the index sets of two different processes are disjoint, and an
index is launched by some process exactly when it lies in
`{0, ..., TotalSegments-1}`. -/
theorem Start_full_coverage (t : String) (l segmentCount totalSegments : Int) (P : Nat)
    (hcount : 1 ≤ segmentCount) (htotal : IsInt totalSegments)
    (hcover : totalSegments = segmentCount * P) :
    (∀ o, o < P →
        (Start (NewScanner (processConfig t segmentCount totalSegments l o))).segments.Nodup) ∧
      (∀ o₁ o₂, o₁ < P → o₂ < P → o₁ ≠ o₂ →
        List.Disjoint
          (Start (NewScanner (processConfig t segmentCount totalSegments l o₁))).segments
          (Start (NewScanner (processConfig t segmentCount totalSegments l o₂))).segments) ∧
      (∀ x : Int,
        (∃ o, o < P ∧
          x ∈ (Start (NewScanner (processConfig t segmentCount totalSegments l o))).segments) ↔
        0 ≤ x ∧ x < totalSegments) := by
  refine ⟨?_, ?_, ?_⟩
  · intro o ho
    rw [process_segments t l segmentCount totalSegments P o hcount htotal hcover ho]
    apply List.Nodup.map_on _ (List.nodup_range _)
    intro i _ j _ h
    omega
  · intro o₁ o₂ h₁ h₂ hne x hx₁ hx₂
    rw [mem_process_segments t l segmentCount totalSegments P _ hcount htotal hcover h₁] at hx₁
    rw [mem_process_segments t l segmentCount totalSegments P _ hcount htotal hcover h₂] at hx₂
    rcases Nat.lt_or_gt_of_ne hne with hlt | hgt
    · have hmul : segmentCount * ((o₁ : Int) + 1) ≤ segmentCount * o₂ :=
        Int.mul_le_mul_of_nonneg_left (by omega) (by omega)
      rw [mul_add, mul_one] at hmul
      omega
    · have hmul : segmentCount * ((o₂ : Int) + 1) ≤ segmentCount * o₁ :=
        Int.mul_le_mul_of_nonneg_left (by omega) (by omega)
      rw [mul_add, mul_one] at hmul
      omega
  · intro x
    constructor
    · rintro ⟨o, ho, hx⟩
      rw [mem_process_segments t l segmentCount totalSegments P _ hcount htotal hcover ho] at hx
      have hmul : segmentCount * ((o : Int) + 1) ≤ segmentCount * P :=
        Int.mul_le_mul_of_nonneg_left (by omega) (by omega)
      have hnonneg : 0 ≤ segmentCount * (o : Int) :=
        Int.mul_nonneg (by omega) (by omega)
      rw [mul_add, mul_one] at hmul
      omega
    · rintro ⟨h0, hlt⟩
      have hpos : 0 < segmentCount := by omega
      have hq0 : 0 ≤ x / segmentCount := Int.ediv_nonneg h0 (by omega)
      have hqP : x / segmentCount < P := by
        apply Int.ediv_lt_of_lt_mul hpos
        rw [mul_comm]
        omega
      have hdiv := Int.ediv_add_emod x segmentCount
      have hm0 := Int.emod_nonneg x (show segmentCount ≠ 0 by omega)
      have hm1 := Int.emod_lt_of_pos x hpos
      have ho : (x / segmentCount).toNat < P := by omega
      refine ⟨(x / segmentCount).toNat, ho, ?_⟩
      rw [mem_process_segments t l segmentCount totalSegments P _ hcount htotal hcover ho]
      have hcast : (((x / segmentCount).toNat : Nat) : Int) = x / segmentCount :=
        Int.toNat_of_nonneg hq0
      rw [hcast]
      omega

/-! ## Range of the segment indices -/

/-- C8, as claimed, fails: with `SegmentCount = 3`, `SegmentOffset = 2` and
`TotalSegments = 3` (all Go `int`s) `Start` launches workers for the segment
indices 6, 7, 8, none of which is below `TotalSegments`. -/
theorem Start_segment_out_of_range :
    (Config.WF
        { TableName := "t", SegmentCount := 3, SegmentOffset := 2, TotalSegments := 3,
          Limit := 10 }) ∧
      (Start (NewScanner
        { TableName := "t", SegmentCount := 3, SegmentOffset := 2, TotalSegments := 3,
          Limit := 10 })).segments = [6, 7, 8] ∧
      ¬ ∀ x ∈ (Start (NewScanner
          { TableName := "t", SegmentCount := 3, SegmentOffset := 2, TotalSegments := 3,
            Limit := 10 })).segments,
        0 ≤ x ∧ x < (3 : Int) := by
  have hseg : (Start (NewScanner
      { TableName := "t", SegmentCount := 3, SegmentOffset := 2, TotalSegments := 3,
        Limit := 10 })).segments = [6, 7, 8] := by
    rw [Start_segments_eq _ (by decide)]
    decide
  refine ⟨by decide, hseg, ?_⟩
  rw [hseg]
  decide

/-- C8, amended.  For every configuration (of Go `int`s) with
`SegmentOffset ≥ 0` and `SegmentCount * (SegmentOffset + 1) ≤ TotalSegments`,
every segment index that `Start` passes to a worker is
`SegmentCount * SegmentOffset + i` for some `i` in `[0, SegmentCount)` and
lies in `[0, TotalSegments)`, and so does the `Segment` of every request of
that worker. -/
theorem Start_segment_range (cfg : Config) (hwf : cfg.WF) (hoff : 0 ≤ cfg.SegmentOffset)
    (hfit : cfg.SegmentCount * (cfg.SegmentOffset + 1) ≤ cfg.TotalSegments) :
    (∀ x ∈ (Start (NewScanner cfg)).segments,
        (∃ i : Int, 0 ≤ i ∧ i < cfg.SegmentCount ∧
          x = cfg.SegmentCount * cfg.SegmentOffset + i) ∧
        0 ≤ x ∧ x < cfg.TotalSegments) ∧
      (∀ w ∈ (Start (NewScanner cfg)).workers, ∀ (rs : List ScanResult),
        ∀ p ∈ requests (handlerLoop cfg w.segment rs).events,
          0 ≤ p.Segment ∧ p.Segment < p.TotalSegments) := by
  have hint : IsInt cfg.SegmentCount := hwf.1
  have htotal : IsInt cfg.TotalSegments := hwf.2.2.1
  have hmain : ∀ x ∈ (Start (NewScanner cfg)).segments,
      (∃ i : Int, 0 ≤ i ∧ i < cfg.SegmentCount ∧
        x = cfg.SegmentCount * cfg.SegmentOffset + i) ∧
      0 ≤ x ∧ x < cfg.TotalSegments := by
    intro x hx
    rw [Start_segments_eq cfg hint, List.mem_map] at hx
    obtain ⟨k, hk, rfl⟩ := hx
    rw [List.mem_range] at hk
    have hpos : 0 ≤ cfg.SegmentCount := by omega
    have hnonneg : 0 ≤ cfg.SegmentCount * cfg.SegmentOffset := Int.mul_nonneg hpos hoff
    rw [mul_add, mul_one] at hfit
    have hrep : IsInt (cfg.SegmentCount * cfg.SegmentOffset + k) := by
      unfold IsInt at htotal ⊢
      omega
    rw [wrapInt_of_isInt _ hrep]
    exact ⟨⟨k, by omega, by omega, rfl⟩, by omega, by omega⟩
  refine ⟨hmain, ?_⟩
  intro w hw rs p hp
  obtain ⟨h1, h2⟩ := loop_requests_mem cfg w.segment handlerLoop.init rs p hp
  have hx := hmain w.segment (List.mem_map_of_mem Worker.segment hw)
  rw [h1, h2]
  exact hx.2

/-! ## The system of workers -/

theorem loop_events_ne_nil (cfg : Config) (segment : Int) (st : LoopState)
    (rs : List ScanResult) : (handlerLoop.loop cfg segment st rs).events ≠ [] := by
  cases rs with
  | nil => simp [loop_nil]
  | cons r rs =>
    cases r with
    | err e => simp [loop_err]
    | ok resp =>
      by_cases hk : resp.LastEvaluatedKey = none
      · simp [loop_ok_last _ _ _ _ _ hk]
      · simp [loop_ok_more _ _ _ _ _ hk]

theorem loop_snoc (cfg : Config) (segment : Int) (r : ScanResult) :
    ∀ (rs : List ScanResult) (st : LoopState),
      handlerLoop.loop cfg segment st (rs ++ [r]) =
        match (handlerLoop.loop cfg segment st rs).final with
        | none => handlerLoop.loop cfg segment st rs
        | some st' =>
          ⟨(handlerLoop.loop cfg segment st rs).events.dropLast ++
              (handlerLoop.loop cfg segment st' [r]).events,
            (handlerLoop.loop cfg segment st' [r]).final⟩ := by
  intro rs
  induction rs with
  | nil =>
    intro st
    simp [loop_nil]
  | cons r₀ rs ih =>
    intro st
    cases r₀ with
    | err e =>
      rw [List.cons_append, loop_err, loop_err, ih]
      cases hfin : (handlerLoop.loop cfg segment
        ⟨st.lastEvaluatedKey, ⟨st.bk.attempt + 1, st.bk.Max, st.bk.Jitter⟩⟩ rs).final with
      | none => simp [hfin]
      | some st' =>
        simp [List.dropLast_cons_of_ne_nil (loop_events_ne_nil _ _ _ _)]
    | ok resp =>
      by_cases hk : resp.LastEvaluatedKey = none
      · rw [List.cons_append, loop_ok_last _ _ _ _ _ hk, loop_ok_last _ _ _ _ _ hk]
      · rw [List.cons_append, loop_ok_more _ _ _ _ _ hk, loop_ok_more _ _ _ _ _ hk, ih]
        cases hfin : (handlerLoop.loop cfg segment
          { lastEvaluatedKey := resp.LastEvaluatedKey, bk := st.bk.Reset } rs).final with
        | none => simp [hfin]
        | some st' =>
          simp [List.dropLast_cons_of_ne_nil (loop_events_ne_nil _ _ _ _)]

theorem worker_spawn_inv (cfg : Config) (segment : Int) : (Worker.spawn segment).Inv cfg := by
  refine ⟨rfl, rfl, ?_⟩
  simp [Worker.spawn, loop_nil]

theorem worker_step_segment (cfg : Config) (w : Worker) (r : ScanResult) :
    (w.step cfg r).segment = w.segment := by
  unfold Worker.step
  split
  · rfl
  · split <;> rfl

theorem worker_step_inv (cfg : Config) (w : Worker) (r : ScanResult) (h : w.Inv cfg) :
    (w.step cfg r).Inv cfg := by
  by_cases hex : w.exited = true
  · simpa [Worker.step, hex] using h
  · have hex' : w.exited = false := by simpa using hex
    obtain ⟨_, hdone, hrun⟩ := h
    simp only [hex', Bool.false_eq_true, if_false] at hdone hrun
    have hsnoc := loop_snoc cfg w.segment r w.received handlerLoop.init
    rw [hrun] at hsnoc
    simp only [List.dropLast_concat] at hsnoc
    cases r with
    | err e =>
      have hstep : w.step cfg (.err e) =
          { w with
            st := ⟨w.st.lastEvaluatedKey, ⟨w.st.bk.attempt + 1, w.st.bk.Max, w.st.bk.Jitter⟩⟩
            received := w.received ++ [.err e]
            log := w.log ++ [.scan (handlerLoop.params cfg w.segment w.st.lastEvaluatedKey),
              .println e, .sleep w.st.bk.attempt] } := by
        simp [Worker.step, hex', body_err]
      rw [hstep]
      refine ⟨?_, ?_, ?_⟩
      · simp [hex', ScanResult.terminal]
      · simpa [hex', doneCount, List.count_append] using hdone
      · simp only [hex', Bool.false_eq_true, if_false]
        rw [hsnoc, loop_err, loop_nil]
        simp
    | ok resp =>
      by_cases hk : resp.LastEvaluatedKey = none
      · have hstep : w.step cfg (.ok resp) =
            { w with
              exited := true
              received := w.received ++ [.ok resp]
              log := w.log ++ [.scan (handlerLoop.params cfg w.segment w.st.lastEvaluatedKey),
                .handleItems resp.Items, .done] } := by
          simp [Worker.step, hex', body_ok_last _ _ _ _ hk]
        rw [hstep]
        refine ⟨?_, ?_, ?_⟩
        · simp [ScanResult.terminal, hk]
        · simp only [doneCount] at hdone
          simp [doneCount, List.count_append, hdone]
        · simp only [if_true]
          rw [hsnoc, loop_ok_last _ _ _ _ _ hk]
          simp
      · have hstep : w.step cfg (.ok resp) =
            { w with
              st := { lastEvaluatedKey := resp.LastEvaluatedKey, bk := w.st.bk.Reset }
              received := w.received ++ [.ok resp]
              log := w.log ++ [.scan (handlerLoop.params cfg w.segment w.st.lastEvaluatedKey),
                .handleItems resp.Items] } := by
          simp [Worker.step, hex', body_ok_more _ _ _ _ hk]
        rw [hstep]
        refine ⟨?_, ?_, ?_⟩
        · cases hk' : resp.LastEvaluatedKey with
          | none => exact absurd hk' hk
          | some k => simp [hex', ScanResult.terminal, hk']
        · simpa [hex', doneCount, List.count_append] using hdone
        · simp only [hex', Bool.false_eq_true, if_false]
          rw [hsnoc, loop_ok_more _ _ _ _ _ hk, loop_nil]
          simp

theorem running_set (w w' : Worker) (hw : w.exited = false) :
    ∀ (l : List Worker) (k : Nat), l.get? k = some w →
      ((l.set k w').filter fun v => !v.exited).length + (if w'.exited then 1 else 0) =
        (l.filter fun v => !v.exited).length := by
  intro l
  induction l with
  | nil => intro k h; simp at h
  | cons a l ih =>
    intro k h
    cases k with
    | zero =>
      simp only [List.get?_cons_zero, Option.some.injEq] at h
      subst h
      cases hw' : w'.exited <;> simp [List.filter_cons, hw, hw']
    | succ k =>
      simp only [List.get?_cons_succ] at h
      have := ih k h
      cases ha : a.exited <;> simp [List.filter_cons, ha] <;> omega

theorem map_segment_set (w w' : Worker) (hseg : w'.segment = w.segment) :
    ∀ (l : List Worker) (k : Nat), l.get? k = some w →
      (l.set k w').map Worker.segment = l.map Worker.segment := by
  intro l
  induction l with
  | nil => intro k h; simp at h
  | cons a l ih =>
    intro k h
    cases k with
    | zero =>
      simp only [List.get?_cons_zero, Option.some.injEq] at h
      subst h
      simp [hseg]
    | succ k =>
      simp only [List.get?_cons_succ] at h
      simp [ih k h]

theorem scanner_step_inv (cfg : Config) (s : Scanner) (k : Nat) (r : ScanResult)
    (h : s.Inv cfg) : (s.step k r).Inv cfg := by
  obtain ⟨hcfg, hcount, hsegs, hworkers⟩ := h
  unfold Scanner.step
  cases hget : s.workers.get? k with
  | none => exact ⟨hcfg, hcount, hsegs, hworkers⟩
  | some w =>
    by_cases hex : w.exited = true
    · simpa [hex] using (⟨hcfg, hcount, hsegs, hworkers⟩ : s.Inv cfg)
    · have hex' : w.exited = false := by simpa using hex
      have hmem : w ∈ s.workers := List.get?_mem hget
      have hrun := running_set w (w.step s.config r) hex' s.workers k hget
      simp only [hex', Bool.false_eq_true, if_false]
      refine ⟨hcfg, ?_, ?_, ?_⟩
      · simp only [Scanner.running] at hcount hrun ⊢
        split <;> rename_i hw' <;> simp only [hw', if_true, Bool.false_eq_true, if_false] at hrun
          <;> omega
      · simp only [Scanner.segments] at hsegs ⊢
        rw [map_segment_set w _ (worker_step_segment _ _ _) _ _ hget]
        exact hsegs
      · intro v hv
        rcases List.mem_or_eq_of_mem_set hv with hv | rfl
        · exact hworkers v hv
        · rw [hcfg]
          exact worker_step_inv cfg w r (hworkers w hmem)

theorem Start_inv (cfg : Config) (hint : IsInt cfg.SegmentCount) :
    (Start (NewScanner cfg)).Inv cfg := by
  refine ⟨?_, ?_, rfl, ?_⟩
  · rw [Start_spec cfg hint]
  · rw [Start_spec cfg hint]
    have hall : ∀ w ∈ (List.range cfg.SegmentCount.toNat).map (fun k : Nat =>
        Worker.spawn (wrapInt (cfg.SegmentCount * cfg.SegmentOffset + k))),
        (fun v : Worker => !v.exited) w = true := by
      intro w hw
      obtain ⟨k, _, rfl⟩ := List.mem_map.1 hw
      rfl
    simp only [Scanner.running]
    rw [List.filter_eq_self.2 hall, List.length_map, List.length_range]
  · intro w hw
    rw [Start_spec cfg hint] at hw
    simp only [List.mem_map] at hw
    obtain ⟨k, _, rfl⟩ := hw
    exact worker_spawn_inv cfg _

theorem reachable_inv (cfg : Config) (hint : IsInt cfg.SegmentCount) (s : Scanner)
    (h : Reachable cfg s) : s.Inv cfg := by
  induction h with
  | start => exact Start_inv cfg hint
  | step s k r _ ih => exact scanner_step_inv cfg s k r ih

/-- C5 (join semantics).  In every state of the system formed by one `Start`
call followed by any interleaving of worker steps: the wait group counter
equals the number of launched workers that have not left `handlerLoop`; the
launched workers are those of `Start`, one per unit added to the counter; a
worker has called `Done` once if it has left and never otherwise; a worker
has left exactly when the last result it received is a success without
continuation key; and each worker's log and locals are those of `handlerLoop`
on the results it received.  Hence `Wait` can return exactly when every
launched worker has left, then every worker has received a result without
continuation key, and it cannot return while some worker has received
nothing yet or has last received a failure or a page with a continuation
key. -/
theorem Wait_join (cfg : Config) (hwf : cfg.WF) (s : Scanner) (hs : Reachable cfg s) :
    s.waitGroup = s.running ∧
      s.workers.length = cfg.SegmentCount.toNat ∧
      s.segments = (Start (NewScanner cfg)).segments ∧
      (Start (NewScanner cfg)).waitGroup = (Start (NewScanner cfg)).workers.length ∧
      (∀ w ∈ s.workers, doneCount w.log = if w.exited then 1 else 0) ∧
      (∀ w ∈ s.workers, w.exited = true ↔
        ∃ resp, w.received.getLast? = some (.ok resp) ∧ resp.LastEvaluatedKey = none) ∧
      (∀ w ∈ s.workers,
        (handlerLoop cfg w.segment w.received).final =
            (if w.exited then none else some w.st) ∧
          (handlerLoop cfg w.segment w.received).events =
            w.log ++ (if w.exited then []
              else [.scan (handlerLoop.params cfg w.segment w.st.lastEvaluatedKey)])) ∧
      (Wait s ↔ ∀ w ∈ s.workers, w.exited = true) ∧
      (Wait s → ∀ w ∈ s.workers,
        ∃ resp, w.received.getLast? = some (.ok resp) ∧ resp.LastEvaluatedKey = none) ∧
      ((∃ w ∈ s.workers, w.received = [] ∨
          ∃ r, w.received.getLast? = some r ∧ r.terminal = false) → ¬ Wait s) := by
  have hint : IsInt cfg.SegmentCount := hwf.1
  obtain ⟨_, hcount, hsegs, hworkers⟩ := reachable_inv cfg hint s hs
  have hexit : ∀ w ∈ s.workers, w.exited = true ↔
      ∃ resp, w.received.getLast? = some (.ok resp) ∧ resp.LastEvaluatedKey = none := by
    intro w hw
    obtain ⟨hlast, _, _⟩ := hworkers w hw
    rw [hlast]
    cases hget : w.received.getLast? with
    | none => simp
    | some r =>
      cases r with
      | err e => simp [ScanResult.terminal]
      | ok resp => simp [ScanResult.terminal]
  have hwait : Wait s ↔ ∀ w ∈ s.workers, w.exited = true := by
    unfold Wait
    rw [hcount]
    simp only [Scanner.running, Nat.cast_eq_zero, List.length_eq_zero, List.filter_eq_nil_iff]
    constructor
    · intro h w hw
      simpa using h w hw
    · intro h w hw
      simpa using h w hw
  refine ⟨hcount, ?_, hsegs, ?_, fun w hw => (hworkers w hw).2.1, hexit, ?_, hwait, ?_, ?_⟩
  · have hlen := congrArg List.length hsegs
    simp only [Scanner.segments, List.length_map] at hlen
    rw [hlen, Start_spec cfg hint]
    simp
  · rw [Start_spec cfg hint]
    simp
  · intro w hw
    obtain ⟨_, _, hrun⟩ := hworkers w hw
    unfold handlerLoop
    rw [hrun]
    exact ⟨rfl, rfl⟩
  · intro h w hw
    exact (hexit w hw).1 (hwait.1 h w hw)
  · rintro ⟨w, hw, hpending⟩ h
    obtain ⟨resp, hlast, hnone⟩ := (hexit w hw).1 (hwait.1 h w hw)
    rcases hpending with hnil | ⟨r, hr, hterm⟩
    · simp [hnil] at hlast
    · rw [hlast] at hr
      cases hr
      simp [ScanResult.terminal, hnone] at hterm

/-- The end-to-end scenario of the specification, step by step: the segment
indices stay 0 and 1, the counter goes 2, 2, 1, 0, `Wait` can return only in
the last state, and the handler is called three times, with 10 and 3 records
for segment 0 and 5 records for segment 1, 18 in all. -/
theorem scenario_run :
    scenarioStates.map Scanner.segments = [[0, 1], [0, 1], [0, 1], [0, 1]] ∧
      scenarioStates.map Scanner.waitGroup = [2, 2, 1, 0] ∧
      scenarioStates.map (fun s => decide (Wait s)) = [false, false, false, true] ∧
      scenarioStates.map (fun s => s.workers.map fun w => (handled w.log).map List.length) =
        [[[], []], [[10], []], [[10], [5]], [[10, 3], [5]]] ∧
      10 + 3 + 5 = 18 := by
  decide

/-! ## Exit on the continuation key -/

/-- C10 at a result whose `LastEvaluatedKey` is a non-nil map without
entries: `handlerLoop` calls the handler, does not leave the loop (no `Done`),
stores the empty key and issues a second `Scan` whose `ExclusiveStartKey` is
that empty map.  In general, after a successful result the worker leaves
exactly when `LastEvaluatedKey` is the nil map. -/
theorem handlerLoop_empty_key (cfg : Config) (segment : Int) (items : List AttrMap) :
    (handlerLoop cfg segment [.ok { Items := items, LastEvaluatedKey := some [] }]) =
        ⟨[.scan (handlerLoop.params cfg segment none), .handleItems items,
            .scan (handlerLoop.params cfg segment (some []))],
          some { lastEvaluatedKey := some [], bk := handlerLoop.init.bk }⟩ ∧
      (handlerLoop.params cfg segment (some [])).ExclusiveStartKey = some [] ∧
      (handlerLoop cfg segment
        [.ok { Items := items, LastEvaluatedKey := some [] }]).final ≠ none ∧
      doneCount (handlerLoop cfg segment
        [.ok { Items := items, LastEvaluatedKey := some [] }]).events = 0 ∧
      (∀ resp : ScanOutput,
        (handlerLoop cfg segment [.ok resp]).final = none ↔ resp.LastEvaluatedKey = none) := by
  have hrun : (handlerLoop cfg segment [.ok { Items := items, LastEvaluatedKey := some [] }]) =
      ⟨[.scan (handlerLoop.params cfg segment none), .handleItems items,
          .scan (handlerLoop.params cfg segment (some []))],
        some { lastEvaluatedKey := some [], bk := handlerLoop.init.bk }⟩ := by
    unfold handlerLoop
    rw [loop_ok_more _ _ _ _ _ (by simp), loop_nil]
    simp [handlerLoop.init, handlerLoop.params, Backoff.Reset]
  refine ⟨hrun, params_key _ _ _, ?_, ?_, ?_⟩
  · rw [hrun]; simp
  · rw [hrun]; simp [doneCount]
  · intro resp
    unfold handlerLoop
    by_cases hk : resp.LastEvaluatedKey = none
    · simp [loop_ok_last _ _ _ _ _ hk, hk]
    · simp [loop_ok_more _ _ _ _ _ hk, loop_nil, hk]

/-! ## The theorems at concrete inputs -/

theorem handlerLoop_coverage_witness :
    (∀ p ∈ [(⟨[[("id", "1")], [("id", "2")]], some [("id", "2")]⟩ : ScanOutput)],
        p.LastEvaluatedKey ≠ none) ∧
      handled (handlerLoop scenarioConfig 0
        [.ok { Items := [[("id", "1")], [("id", "2")]], LastEvaluatedKey := some [("id", "2")] },
          .ok { Items := [[("id", "3")]], LastEvaluatedKey := none },
          .err "unused"]).events =
        [[[("id", "1")], [("id", "2")]], [[("id", "3")]]] ∧
      (handlerLoop scenarioConfig 0
        [.ok { Items := [[("id", "1")], [("id", "2")]], LastEvaluatedKey := some [("id", "2")] },
          .ok { Items := [[("id", "3")]], LastEvaluatedKey := none },
          .err "unused"]).final = none :=
  ⟨by decide,
    (handlerLoop_coverage scenarioConfig 0
      [{ Items := [[("id", "1")], [("id", "2")]], LastEvaluatedKey := some [("id", "2")] }]
      { Items := [[("id", "3")]], LastEvaluatedKey := none } [.err "unused"]
      (by decide) rfl).1,
    (handlerLoop_coverage scenarioConfig 0
      [{ Items := [[("id", "1")], [("id", "2")]], LastEvaluatedKey := some [("id", "2")] }]
      { Items := [[("id", "3")]], LastEvaluatedKey := none } [.err "unused"]
      (by decide) rfl).2.2.2.2.2.2⟩

theorem handlerLoop_retry_witness :
    (∀ r ∈ [scenarioPage 1 (some [("id", "1")])], r.terminal = false) ∧
      (requests (handlerLoop scenarioConfig 0
        ([scenarioPage 1 (some [("id", "1")])] ++ ["throttled", "throttled"].map ScanResult.err ++
          .ok { Items := [[("id", "2")]], LastEvaluatedKey := none } :: [])).events)[1 + 2]? =
        some (handlerLoop.params scenarioConfig 0 (some [("id", "1")])) :=
  ⟨by decide,
    (handlerLoop_retry scenarioConfig 0 [scenarioPage 1 (some [("id", "1")])]
      ["throttled", "throttled"] { Items := [[("id", "2")]], LastEvaluatedKey := none } []
      (by decide)).1 2 (by decide)⟩

theorem handlerLoop_backoff_witness :
    (∀ r ∈ [scenarioPage 1 (some [("id", "1")]), .err "throttled"], r.terminal = false) ∧
      (handlerLoop scenarioConfig 0
        ([scenarioPage 1 (some [("id", "1")]), .err "throttled"] ++ [.err "again"])).events =
        (handlerLoop scenarioConfig 0
          [scenarioPage 1 (some [("id", "1")]), .err "throttled"]).events ++
          [.println "again", .sleep 1,
            .scan (handlerLoop.params scenarioConfig 0 (some [("id", "1")]))] :=
  ⟨by decide,
    (handlerLoop_backoff scenarioConfig 0
      [scenarioPage 1 (some [("id", "1")]), .err "throttled"] "again" (by decide)).1⟩

theorem Start_segment_indexing_witness :
    (Config.WF
        { TableName := "t", SegmentCount := 3, SegmentOffset := 2, TotalSegments := 12,
          Limit := 10 }) ∧
      (Start (NewScanner
        { TableName := "t", SegmentCount := 3, SegmentOffset := 2, TotalSegments := 12,
          Limit := 10 })).segments = [6, 7, 8] :=
  ⟨by decide,
    (Start_segment_indexing
      { TableName := "t", SegmentCount := 3, SegmentOffset := 2, TotalSegments := 12,
        Limit := 10 } (by decide)).2.2.2.2.2.2.2.2.2 "t" 10⟩

theorem Wait_join_witness :
    scenarioConfig.WF ∧
      Reachable scenarioConfig ((Start (NewScanner scenarioConfig)).step 1 (scenarioPage 5 none)) ∧
      ((Start (NewScanner scenarioConfig)).step 1 (scenarioPage 5 none)).waitGroup =
        ((Start (NewScanner scenarioConfig)).step 1 (scenarioPage 5 none)).running :=
  ⟨by decide, Reachable.step _ 1 _ Reachable.start,
    (Wait_join scenarioConfig (by decide) _ (Reachable.step _ 1 _ Reachable.start)).1⟩

theorem Start_full_coverage_witness :
    (1 : Int) ≤ 3 ∧ IsInt 12 ∧ (12 : Int) = 3 * (4 : Nat) ∧
      ∀ x : Int,
        (∃ o, o < 4 ∧ x ∈ (Start (NewScanner (processConfig "t" 3 12 10 o))).segments) ↔
          0 ≤ x ∧ x < 12 :=
  ⟨by decide, by decide, by decide,
    (Start_full_coverage "t" 10 3 12 4 (by decide) (by decide) (by decide)).2.2⟩

theorem Start_segment_range_witness :
    (Config.WF
        { TableName := "t", SegmentCount := 3, SegmentOffset := 2, TotalSegments := 12,
          Limit := 10 }) ∧
      (0 : Int) ≤ 2 ∧ (3 : Int) * (2 + 1) ≤ 12 ∧
      ∀ x ∈ (Start (NewScanner
          { TableName := "t", SegmentCount := 3, SegmentOffset := 2, TotalSegments := 12,
            Limit := 10 })).segments,
        (∃ i : Int, 0 ≤ i ∧ i < 3 ∧ x = 3 * 2 + i) ∧ 0 ≤ x ∧ x < 12 :=
  ⟨by decide, by decide, by decide,
    (Start_segment_range
      { TableName := "t", SegmentCount := 3, SegmentOffset := 2, TotalSegments := 12,
        Limit := 10 } (by decide) (by decide) (by decide)).1⟩

end Ddb
